import Mathlib

/-
Verification of the kogs-logger repository: shallow embedding of the
stream-routing engine, level registration, interactive overlays
(progress bar / prompt / choice menu) and the choice-key assignment
algorithm, translated from the TypeScript sources.

The repository contains several variants of the `Log` class:
 - `src/index.ts` (second module): the default-stream variant
   (`pipe(output, levels?, setDefault?)`, `#defaultStream` fallback,
   `addLevel` with the `level !== 'default'` check)  — namespace `V2`;
 - `src/unnamed/part_002` (final module): the default-stream variant
   extended with `write()` (`NO_LEVEL`), pause and prompts — namespace `V2b`;
 - `src/unnamed/part_003`: the richest variant (indentation, custom line
   terminator, markdown, pause, progress bar / prompt / choice, streams
   mapped to plain level arrays, no default stream) — namespace `V3`.

Streams are identified by numeric handles (`sid`); stream writes are
modelled as the list of `(sid, text)` events a call emits, in emission
order.  Terminal-control output used by the overlay machinery
(cursor-to-start, erase-line, overlay redraw on `process.stdout`) is a
separate effect channel from routed stream writes and is modelled by the
overlay component (`ProgressState.stdout`), not by the routing events.
`util.format` interpolation is an external collaborator (spec §1); every
call site in the claims passes no format arguments, in which case
`util.format(message)` returns the message unchanged.
-/

namespace Kogs

/-- mapSet models `Map.set`: replace the value at an existing key in
place (keeping its insertion position), otherwise append the new entry. -/
def mapSet {κ ν : Type} [DecidableEq κ] (k : κ) (v : ν) : List (κ × ν) → List (κ × ν)
  | [] => [(k, v)]
  | (k', v') :: rest => if k' = k then (k, v) :: rest else (k', v') :: mapSet k v rest

/-- mapDelete models `Map.delete`: remove the (first) entry with the key. -/
def mapDelete {κ ν : Type} [DecidableEq κ] (k : κ) : List (κ × ν) → List (κ × ν)
  | [] => []
  | (k', v') :: rest => if k' = k then rest else (k', v') :: mapDelete k rest

/-- mapGet models `Map.get`: the value at the key, if present. -/
def mapGet {κ ν : Type} [DecidableEq κ] (k : κ) : List (κ × ν) → Option ν
  | [] => none
  | (k', v') :: rest => if k' = k then some v' else mapGet k rest

/-- Picocolors `pc.cyan`: wrap in ANSI color code 36 (close 39). -/
def pcCyan (s : String) : String := "\x1b[36m" ++ s ++ "\x1b[39m"

/-- Picocolors `pc.yellow`: wrap in ANSI color code 33 (close 39). -/
def pcYellow (s : String) : String := "\x1b[33m" ++ s ++ "\x1b[39m"

/-- Picocolors `pc.red`: wrap in ANSI color code 31 (close 39). -/
def pcRed (s : String) : String := "\x1b[31m" ++ s ++ "\x1b[39m"

/-- Picocolors `pc.green`: wrap in ANSI color code 32 (close 39). -/
def pcGreen (s : String) : String := "\x1b[32m" ++ s ++ "\x1b[39m"

/-- Picocolors `pc.bold`: ANSI 1 (close 22). -/
def pcBold (s : String) : String := "\x1b[1m" ++ s ++ "\x1b[22m"

/-- Picocolors `pc.italic`: ANSI 3 (close 23). -/
def pcItalic (s : String) : String := "\x1b[3m" ++ s ++ "\x1b[23m"

/-- Picocolors `pc.strikethrough`: ANSI 9 (close 29). -/
def pcStrikethrough (s : String) : String := "\x1b[9m" ++ s ++ "\x1b[29m"

/-- JavaScript `'x'.repeat(n)`. -/
def strRepeat (s : String) (n : Nat) : String := String.join (List.replicate n s)

/-- util.format with no format arguments returns the message unchanged.
Printf-style interpolation of extra arguments is out of scope (spec §1)
and no claim exercises it. -/
def utilFormat (message : String) : String := message

namespace V2

/-- State of the `Log` class of the default-stream variant
(`src/index.ts`, second module).  `streams` is the insertion-ordered
`Map<WritableStream, Set<string> | null>` (`none` = the `null`
catch-all registration; `some ls` = an explicit accepted-level set,
membership-only, so a `List` models the `Set`).  `members` is the set of
property names defined on the instance (`this[level] !== undefined`):
the class methods, `constructor`, and every installed level function
(further names inherited from `Object.prototype` behave identically and
are omitted).  `funcs` records the installed level function for each
level name as its optional decorator identifier. -/
structure LogState where
  streams : List (Nat × Option (List String))
  defaultStream : Option Nat
  members : List String
  levels : List String
  funcs : List (String × Option Nat)
deriving Repr, DecidableEq

/-- Member names defined directly by the class of `src/index.ts`. -/
def classMembers : List String :=
  ["constructor", "info", "warn", "error", "success", "pipe", "unpipe", "addLevel"]

/-- Whether a stream registration accepts a level:
`levels === null || levels.has(level)` (src/index.ts line 248). -/
def accepts (targets : Option (List String)) (level : String) : Bool :=
  match targets with
  | none => true
  | some ls => ls.contains level

/-- `Log.pipe(output, levels?, setDefault)` (src/index.ts lines 172-179):
store the accepted-set (or `null` for omitted levels), then update the
default stream: set it when requested, clear it when this stream was the
default and `setDefault` is false. -/
def pipe (output : Nat) (levels : Option (List String)) (setDefault : Bool)
    (st : LogState) : LogState :=
  let st := { st with streams := mapSet output levels st.streams }
  if setDefault then { st with defaultStream := some output }
  else if st.defaultStream = some output then { st with defaultStream := none }
  else st

/-- `Log.unpipe(output?)` (src/index.ts lines 189-199). -/
def unpipe (output : Option Nat) (st : LogState) : LogState :=
  match output with
  | none => { st with streams := [], defaultStream := none }
  | some s =>
    let st := { st with streams := mapDelete s st.streams }
    if st.defaultStream = some s then { st with defaultStream := none } else st

/-- The `Log` constructor wiring (src/index.ts lines 121-124):
`pipe(stdout, ['info','success'], true); pipe(stderr, ['warn','error'])`
with `stdout` = stream 0 and `stderr` = stream 1. -/
def initState : LogState :=
  pipe 1 (some ["warn", "error"]) false
    (pipe 0 (some ["info", "success"]) true
      { streams := [], defaultStream := none, members := classMembers,
        levels := ["info", "warn", "error", "success"], funcs := [] })

/-- The stream loop of `Log.#write` (src/index.ts lines 246-252): visit
streams in registration order, write to every accepting one and track
`hasWritten`. -/
def writeCore (streams : List (Nat × Option (List String))) (level line : String)
    (acc : List (Nat × String) × Bool) : List (Nat × String) × Bool :=
  streams.foldl
    (fun acc p => if accepts p.2 level then (acc.1 ++ [(p.1, line)], true) else acc)
    acc

/-- `Log.#write(level, message, ...args)` (src/index.ts lines 243-256) as
the list of stream-write events it emits: every accepting stream gets
the line; if none accepted, the default stream (when set) gets it. -/
def write (st : LogState) (level message : String) : List (Nat × String) :=
  let output := utilFormat message
  let core := writeCore st.streams level (output ++ "\n") ([], false)
  if core.2 then core.1
  else
    match st.defaultStream with
    | some d => [(d, output ++ "\n")]
    | none => []

/-- `#streams.get(#defaultStream)?.add(level)` (src/index.ts line 224):
push the level onto the default stream's explicit set, if the default is
set, registered, and not a `null` catch-all (`Set.add` is a no-op when
the element is present). -/
def addToDefaultStream (level : String) (st : LogState) : List (Nat × Option (List String)) :=
  match st.defaultStream with
  | none => st.streams
  | some d =>
    match mapGet d st.streams with
    | none => st.streams
    | some none => st.streams
    | some (some ls) =>
      mapSet d (some (if ls.contains level then ls else ls ++ [level])) st.streams

/-- `Log.addLevel(level, decorator?, addToDefault)` (src/index.ts lines
213-230).  Succeeds, installing (overwriting) the level function, iff
the name is not an existing member or is an already-known level, and is
not the literal name `'default'`; otherwise throws the reserved-name
error. -/
def addLevel (level : String) (dec : Option Nat) (addToDefault : Bool)
    (st : LogState) : Except String LogState :=
  if (!(st.members.contains level) || st.levels.contains level) && level ≠ "default" then
    .ok { st with
      members := if st.members.contains level then st.members else st.members ++ [level],
      funcs := mapSet level dec st.funcs,
      streams := if addToDefault then addToDefaultStream level st else st.streams,
      levels := if st.levels.contains level then st.levels else st.levels ++ [level] }
  else
    .error ("Cannot create custom logging level with reserved name: " ++ level)

/-- A stream close event in the default-stream variant: `Log.pipe` of
`src/index.ts` registers no `'close'` listener on the stream, so closure
of a registered stream runs no handler and the logger state is
unchanged. -/
def onClose (_output : Nat) (st : LogState) : LogState := st

end V2

namespace V2b

/-- `NO_LEVEL` (src/unnamed/part_002 line 1283), the level tag used by
`Log.write`. -/
def NO_LEVEL : String := ""

/-- State of the `Log` class of the final module of
`src/unnamed/part_002`: the default-stream variant extended with
`#isPaused` and `#userPrompt`.  The overlay redraw that `#write`
performs on `process.stdout` when `#userPrompt` is set is
terminal-control output, not a routed stream write, and is modelled by
the overlay component. -/
structure LogState where
  streams : List (Nat × Option (List String))
  defaultStream : Option Nat
  isPaused : Bool
  userPrompt : Option String
deriving Repr, DecidableEq

/-- `Log.write(message, ...args)` is `#write(NO_LEVEL, message, ...args)`
(src/unnamed/part_002 lines 1351-1353); `#write` (lines 1598-1628)
skips the stream loop entirely for `NO_LEVEL` (line 1613), so
`hasWritten` stays false and only the default-stream fallback can
fire. -/
def write (st : LogState) (level message : String) : List (Nat × String) :=
  if st.isPaused then []
  else
    let output := utilFormat message
    let core :=
      if level ≠ NO_LEVEL then V2.writeCore st.streams level (output ++ "\n") ([], false)
      else ([], false)
    if core.2 then core.1
    else
      match st.defaultStream with
      | some d => [(d, output ++ "\n")]
      | none => []

/-- `Log.write` of the part_002 module: tag with `NO_LEVEL`. -/
def plainWrite (st : LogState) (message : String) : List (Nat × String) :=
  write st NO_LEVEL message

/-- The constructor wiring of the part_002 module (lines 1320-1323),
identical to `src/index.ts`: stdout = 0 (default, info/success),
stderr = 1 (warn/error). -/
def initState : LogState :=
  { streams := [(0, some ["info", "success"]), (1, some ["warn", "error"])],
    defaultStream := some 0, isPaused := false, userPrompt := none }

end V2b

/-- One global replacement pass of a JavaScript non-greedy delimited
pattern such as `\*\*(.*?)\*\*`: `splitFirst d cs` splits `cs` around the
first occurrence of the delimiter `d`, returning the part before it and
the part after it. -/
def splitFirst (d : List Char) : List Char → Option (List Char × List Char)
  | [] => none
  | c :: cs =>
    if d.isPrefixOf (c :: cs) then some ([], (c :: cs).drop d.length)
    else
      match splitFirst d cs with
      | some (pre, post) => some (c :: pre, post)
      | none => none

/-- Fuel-driven scan implementing `message.replace(/d(.*?)d/g, wrap)`:
find the leftmost opening delimiter, then the shortest closing one, wrap
the captured text, and continue after the match.  The fuel
(the input length plus one) always suffices because each match consumes
at least the two delimiters. -/
def replacePairs (d : List Char) (wrap : String → String) : Nat → List Char → List Char
  | 0, cs => cs
  | fuel + 1, cs =>
    match splitFirst d cs with
    | none => cs
    | some (pre, rest) =>
      match splitFirst d rest with
      | none => cs
      | some (inner, post) =>
        pre ++ (wrap (String.mk inner)).data ++ replacePairs d wrap fuel post

/-- All global replacements of one delimited pattern in a string. -/
def replaceAllPairs (d : String) (wrap : String → String) (s : String) : String :=
  String.mk (replacePairs d.data wrap (s.data.length + 1) s.data)

/-- `formatMarkdown` (src/unnamed/part_003 lines 52-58): bold, then
italic, then strikethrough replacement. -/
def formatMarkdown (message : String) : String :=
  let message := replaceAllPairs "**" pcBold message
  let message := replaceAllPairs "*" pcItalic message
  replaceAllPairs "~~" pcStrikethrough message

namespace V3

/-- A writable-stream handle of the richest variant: its identity and
its `writable` flag (read by `#write`, line 493). -/
structure Sink where
  sid : Nat
  writable : Bool
deriving Repr, DecidableEq

/-- State of the `Log` class of `src/unnamed/part_003`.  `streams` is
the insertion-ordered `Map<WritableStream, string[]>`; there is no
default stream in this variant.  `closeHandlers` records the sinks on
which `pipe` has registered its `once('close', () => streams.delete(stream))`
listener.  `members`, `levels` and `funcs` play the same role as in the
`V2` model. -/
structure LogState where
  streams : List (Sink × List String)
  userPrompt : Option String
  isPaused : Bool
  enableMarkdown : Bool
  indentationLevel : Nat
  indentString : String
  lineTerminator : String
  members : List String
  levels : List String
  funcs : List (String × Option Nat)
  closeHandlers : List Sink
deriving Repr, DecidableEq

/-- Member names defined directly on an instance of the part_003 class:
its methods, `constructor` and its public fields (names inherited from
`Object.prototype` behave identically and are omitted). -/
def classMembers : List String :=
  ["constructor", "pause", "resume", "indent", "outdent", "clearIndentation",
   "write", "info", "warn", "error", "success", "pipe", "unpipe", "level",
   "progress", "prompt", "choice", "enableMarkdown", "indentString",
   "lineTerminator"]

/-- `Log.pipe(streamOrPath, levels = [])` (src/unnamed/part_003 lines
178-186): register the stream with the given level list and attach the
`once('close')` listener that deletes the stream from the map. -/
def pipe (s : Sink) (levels : List String) (st : LogState) : LogState :=
  { st with streams := mapSet s levels st.streams,
            closeHandlers := st.closeHandlers ++ [s] }

/-- `Log.unpipe(stream)` (src/unnamed/part_003 lines 192-194). -/
def unpipe (s : Sink) (st : LogState) : LogState :=
  { st with streams := mapDelete s st.streams }

/-- A `'close'` event on a sink: when `pipe` attached its listener, the
listener fires (once) and performs `this.#streams.delete(stream)`;
otherwise nothing happens. -/
def onClose (s : Sink) (st : LogState) : LogState :=
  if st.closeHandlers.contains s then
    { st with streams := mapDelete s st.streams,
              closeHandlers := st.closeHandlers.filter (fun h => h ≠ s) }
  else st

/-- The stream condition of `#write` (src/unnamed/part_003 line 493):
`stream.writable && levels.length === 0 || levels.includes(level)` —
JavaScript `&&` binds tighter than `||`. -/
def accepts (p : Sink × List String) (level : String) : Bool :=
  (p.1.writable && p.2.isEmpty) || p.2.contains level

/-- `Log.#write(level, message, ...args)` (src/unnamed/part_003 lines
473-498) as the list of routed stream-write events: nothing while
paused; otherwise apply markdown (when enabled), interpolation and
indentation, then write to every stream whose entry satisfies
`accepts`.  The overlay clear/redraw on `process.stdout` (lines 479-482
and 496-497) is terminal-control output modelled by the overlay
component, not a routed stream write. -/
def write (st : LogState) (level message : String) : List (Nat × String) :=
  if st.isPaused then []
  else
    let message := if st.enableMarkdown then formatMarkdown message else message
    let output := utilFormat message
    let output :=
      if 0 < st.indentationLevel then strRepeat st.indentString st.indentationLevel ++ output
      else output
    st.streams.foldl
      (fun acc p =>
        if accepts p level then acc ++ [(p.1.sid, output ++ st.lineTerminator)] else acc)
      []

/-- `Log.write(message, ...args)` (src/unnamed/part_003 lines 129-131):
`this.#write('info', message, ...args)` — the plain write is tagged with
the `info` level in this variant. -/
def plainWrite (st : LogState) (message : String) : List (Nat × String) :=
  write st "info" message

/-- The text `#write` sends to each accepting stream: the message after
markdown (when enabled), interpolation and indentation, with the line
terminator appended. -/
def lineOut (st : LogState) (message : String) : String :=
  (let message := if st.enableMarkdown then formatMarkdown message else message
   let output := utilFormat message
   if 0 < st.indentationLevel then strRepeat st.indentString st.indentationLevel ++ output
   else output) ++ st.lineTerminator

/-- `streamLevels.push(level)` of `Log.level` (src/unnamed/part_003
lines 217-219): push the level onto the target stream's list when the
stream is registered and the list does not contain it yet. -/
def pushLevel (target : Sink) (level : String) (streams : List (Sink × List String)) :
    List (Sink × List String) :=
  match mapGet target streams with
  | none => streams
  | some ls => mapSet target (if ls.contains level then ls else ls ++ [level]) streams

/-- `Log.level(level, decorator?, stream = process.stdout)`
(src/unnamed/part_003 lines 208-225): succeeds (installing or
overwriting the level function and wiring the level into the target
stream's list) iff the name is not an existing member or is an
already-known level; there is no reserved `'default'` name in this
variant. -/
def levelOp (level : String) (dec : Option Nat) (target : Sink) (st : LogState) :
    Except String LogState :=
  if !(st.members.contains level) || st.levels.contains level then
    .ok { st with
      members := if st.members.contains level then st.members else st.members ++ [level],
      funcs := mapSet level dec st.funcs,
      streams := pushLevel target level st.streams,
      levels := if st.levels.contains level then st.levels else st.levels ++ [level] }
  else
    .error ("Cannot create custom logging level with reserved name: " ++ level)

/-- The constructor wiring of part_003 (lines 71-74):
`pipe(stdout, ['info','success']); pipe(stderr, ['warn','error'])`, with
`process.stdout` = sink 0 and `process.stderr` = sink 1, both writable;
field defaults from lines 61-69. -/
def initState : LogState :=
  pipe ⟨1, true⟩ ["warn", "error"]
    (pipe ⟨0, true⟩ ["info", "success"]
      { streams := [], userPrompt := none, isPaused := false, enableMarkdown := true,
        indentationLevel := 0, indentString := "  ", lineTerminator := "\n",
        members := classMembers, levels := ["info", "warn", "error", "success"],
        funcs := [], closeHandlers := [] })

end V3

namespace Progress

/-- JavaScript `Math.round`: floor of the value plus one half. -/
def jsRound (q : ℚ) : ℤ := ⌊q + 1 / 2⌋

/-- State visible to one progress bar (src/unnamed/part_003 lines
244-288): the closure variables `currentValue` and `finished`, the
logger's `#userPrompt`, and the text written to `process.stdout`
(one list entry per `process.stdout.write` call). -/
structure State where
  currentValue : ℚ
  finished : Bool
  userPrompt : Option String
  stdout : List String
deriving DecidableEq

/-- The bar text built by `writeProgress` (line 258):
`prefix + '[' + color('='.repeat(progress)) + ' '.repeat(40 - progress) + '] ' + Math.round(value*100) + '%'`
with `progress = Math.round(value * 40)`. -/
def barText (pfx : String) (color : String → String) (value : ℚ) : String :=
  let progress := (jsRound (value * 40)).toNat
  pfx ++ "[" ++ color (strRepeat "=" progress) ++ strRepeat " " (40 - progress) ++ "] "
      ++ (jsRound (value * 100)).repr ++ "%"

/-- `writeProgress(value, color, finish, first)` (src/unnamed/part_003
lines 251-275): a no-op once `finished`; otherwise record the value,
clear the current line when the text changed (unless this is the first
render), then either write the text with the trailing line terminator
and deactivate (finish), or rewrite the changed text and track it as the
current prompt. -/
def writeProgress (pfx term : String) (value : ℚ) (color : String → String)
    (fin first : Bool) (st : State) : State :=
  if st.finished then st
  else
    let st := { st with currentValue := value }
    let out := barText pfx color value
    let changed := st.userPrompt ≠ some out
    let st := if !first && changed then { st with stdout := st.stdout ++ ["\r\x1b[K"] } else st
    if fin then
      { st with stdout := st.stdout ++ [out ++ term], userPrompt := none, finished := true }
    else if changed then
      { st with stdout := st.stdout ++ [out], userPrompt := some out }
    else st

/-- The `update` closure of the returned controller (lines 280-284):
clamp the value to [0, 1], auto-finish exactly at 1 with the success
color, otherwise render in yellow. -/
def update (pfx term : String) (v : ℚ) (st : State) : State :=
  let v := min 1 (max 0 v)
  let autoFinish := v = 1
  writeProgress pfx term v (if autoFinish then pcGreen else pcYellow)
    (decide autoFinish) false st

/-- The `cancel` closure (line 285): freeze at the current value,
failed-colored, finished. -/
def cancel (pfx term : String) (st : State) : State :=
  writeProgress pfx term st.currentValue pcRed true false st

/-- The `finish` closure (line 286): value 1, success-colored,
finished. -/
def finish (pfx term : String) (st : State) : State :=
  writeProgress pfx term 1 pcGreen true false st

end Progress

namespace Choice

/-- A parsed choice (src/unnamed/part_003 lines 8-12); string entries of
the input list are parsed to `{ label := s, key := none }`
(`plainChoice`).  The optional `value` field plays no part in key
assignment and is omitted. -/
structure Item where
  label : String
  key : Option String
deriving Repr, DecidableEq

/-- The parse of a plain string entry: `{ label: choice }` (line 382). -/
def plainChoice (label : String) : Item := { label := label, key := none }

/-- Choice-menu options (lines 14-17) with their defaults
(`margin ?? 2`, `prependKey ?? true`, lines 420 and 431). -/
structure Options where
  margin : Nat := 2
  prependKey : Bool := true
deriving Repr, DecidableEq

/-- `choice.label.toLowerCase().match(/[a-z]/)?.[0]` (line 401): the
first ASCII-alphabetic character of the lowercased label (lowercasing is
per-character), as a one-character string. -/
def firstAlpha (label : String) : Option String :=
  ((label.data.map Char.toLower).find? (fun c => 'a' ≤ c && c ≤ 'z')).map
    (fun c => String.mk [c])

/-- The numeric-key fallback loop (lines 405-412): starting from the
choice's 1-based position, keep incrementing while the decimal string of
the number is already assigned.  The fuel of `used.length + 1`
candidates always suffices: decimal representations are injective, so
at most `used.length` of them can be assigned. -/
def numKeyFrom (used : List String) (n : Nat) : Nat → String
  | 0 => Nat.repr n
  | fuel + 1 => if used.contains (Nat.repr n) then numKeyFrom used (n + 1) fuel else Nat.repr n

/-- Key generation for one choice lacking an explicit key (lines
399-413): the first alphabetic character of its label when present and
unused, otherwise the numeric fallback from its 1-based position. -/
def genKey (used : List String) (label : String) (pos : Nat) : String :=
  match firstAlpha label with
  | some c => if used.contains c then numKeyFrom used pos (used.length + 1) else c
  | none => numKeyFrom used pos (used.length + 1)

/-- The first pass over the choices (lines 387-394): collect explicitly
assigned keys in order, failing on a duplicate. -/
def collectExplicit : List Item → List String → Except String (List String)
  | [], acc => .ok acc
  | c :: rest, acc =>
    match c.key with
    | none => collectExplicit rest acc
    | some k =>
      if acc.contains k then
        .error ("log.choice(): Choice " ++ c.label ++ " assigned duplicate key " ++ k)
      else collectExplicit rest (acc ++ [k])

/-- The second pass (lines 397-417): in list order, give every choice
lacking a key a generated one and add it to the assigned set.  The
1-based position `parsedChoices.indexOf(choice) + 1` is the positional
index for choices parsed from distinct objects, which is always the
case for string entries. -/
def assignLoop (used : List String) (i : Nat) : List Item → List Item
  | [] => []
  | c :: rest =>
    match c.key with
    | some _ => c :: assignLoop used (i + 1) rest
    | none =>
      let k := genKey used c.label (i + 1)
      { c with key := some k } :: assignLoop (used ++ [k]) (i + 1) rest

/-- Both key-assignment passes of `Log.choice`. -/
def assignKeys (choices : List Item) : Except String (List Item) := do
  let used ← collectExplicit choices []
  .ok (assignLoop used 0 choices)

/-- The keys of a processed choice list. -/
def keysOf (items : List Item) : List String := items.map (fun c => c.key.getD "")

/-- The rendered menu line (lines 396-431): `(key) label` (or the bare
label) per choice, with an empty segment on each side, joined by the
margin. -/
def renderChoices (items : List Item) (opts : Options) : String :=
  let body := items.map (fun c =>
    if opts.prependKey then "(" ++ c.key.getD "" ++ ") " ++ c.label else c.label)
  String.intercalate (strRepeat " " opts.margin) ([""] ++ body ++ [""])

/-- NumSpec used pos k: the numeric fallback described by the spec — `k`
is the decimal string of the least number `m ≥ pos` (the 1-based
position) whose decimal string is not already used. -/
def NumSpec (used : List String) (pos : Nat) (k : String) : Prop :=
  ∃ m, pos ≤ m ∧ k = Nat.repr m ∧ used.contains (Nat.repr m) = false ∧
    ∀ j, pos ≤ j → j < m → used.contains (Nat.repr j) = true

/-- KeySpec used label pos k: the spec's description of the key assigned
to a choice without an explicit key, given the set of keys already
used — the first (lowercased) alphabetic character of the label if
unused, otherwise the numeric fallback from the 1-based position. -/
def KeySpec (used : List String) (label : String) (pos : Nat) (k : String) : Prop :=
  match firstAlpha label with
  | some c => (used.contains c = false ∧ k = c) ∨ (used.contains c = true ∧ NumSpec used pos k)
  | none => NumSpec used pos k

end Choice

/-- Decidable equality of `Except` results, for evaluating operations
that may throw on concrete inputs. -/
instance {ε α : Type} [DecidableEq ε] [DecidableEq α] : DecidableEq (Except ε α) := fun x y =>
  match x, y with
  | .ok a, .ok b =>
    if h : a = b then isTrue (congrArg Except.ok h)
    else isFalse (fun e => h (by injection e))
  | .error a, .error b =>
    if h : a = b then isTrue (congrArg Except.error h)
    else isFalse (fun e => h (by injection e))
  | .ok _, .error _ => isFalse (fun e => Except.noConfusion e)
  | .error _, .ok _ => isFalse (fun e => Except.noConfusion e)

/-- The numeric value of a decimal digit character. -/
def digitVal (c : Char) : Nat := c.toNat - '0'.toNat

/-- Left-to-right decimal evaluation of a digit string, used to show
that `Nat.repr` is injective. -/
def parseDigits (a : Nat) : List Char → Nat
  | [] => a
  | c :: cs => parseDigits (a * 10 + digitVal c) cs

/-- The number of decimal digits of a natural number. -/
def digitCount (n : Nat) : Nat :=
  if h : n < 10 then 1 else digitCount (n / 10) + 1
decreasing_by omega

namespace V3

/-- The synchronous part of `Log.progress(prefix, initialPct)`
(src/unnamed/part_003 lines 244-277): throw when an interactive prompt
is active; otherwise perform the first render (first = true, not
finishing, yellow), which sets `#userPrompt` to the bar text. -/
def progressOp (pfx : String) (initialPct : ℚ) (st : LogState) : Except String LogState :=
  if st.userPrompt.isSome then
    .error "Cannot display progress bar while another interactive prompt is active."
  else
    .ok { st with userPrompt := some (Progress.barText pfx pcYellow initialPct) }

/-- The synchronous part of `Log.prompt(message, mask)`
(src/unnamed/part_003 lines 305-360): throw when an interactive prompt
is active; otherwise display the prompt and record it as
`#userPrompt`. -/
def promptOp (message : String) (_mask : Bool) (st : LogState) : Except String LogState :=
  if st.userPrompt.isSome then
    .error "Cannot display input prompt while another interactive prompt is active."
  else
    .ok { st with userPrompt := some message }

/-- The synchronous part of `Log.choice(choices, options?)`
(src/unnamed/part_003 lines 375-432): throw on an empty choice list,
throw when an interactive prompt is active, then assign keys (throwing
on duplicate explicit keys) and record the rendered menu as
`#userPrompt`. -/
def choiceOp (choices : List Choice.Item) (opts : Choice.Options) (st : LogState) :
    Except String LogState :=
  if choices.length = 0 then .error "log.choice(): No choices provided"
  else if st.userPrompt.isSome then
    .error "Cannot display choice prompt while another interactive prompt is active."
  else do
    let parsed ← Choice.assignKeys choices
    .ok { st with userPrompt := some (Choice.renderChoices parsed opts) }

end V3

/-! Helper lemmas. -/

theorem foldl_if_append {α β : Type} (f : α → Bool) (g : α → β) (l : List α)
    (acc : List β) :
    l.foldl (fun acc p => if f p then acc ++ [g p] else acc) acc
      = acc ++ (l.filter f).map g := by
  induction l generalizing acc with
  | nil => simp
  | cons a l ih =>
    by_cases h : f a <;> simp [h, ih, List.filter_cons]

theorem writeCore_spec (streams : List (Nat × Option (List String))) (level line : String)
    (acc : List (Nat × String)) (b : Bool) :
    V2.writeCore streams level line (acc, b) =
      (acc ++ (streams.filter (fun p => V2.accepts p.2 level)).map (fun p => (p.1, line)),
       b || streams.any (fun p => V2.accepts p.2 level)) := by
  induction streams generalizing acc b with
  | nil => simp [V2.writeCore]
  | cons p rest ih =>
    unfold V2.writeCore at ih ⊢
    by_cases h : V2.accepts p.2 level <;>
      simp only [List.foldl_cons, h, if_true, if_false, Bool.false_or, Bool.true_or,
        List.filter_cons, List.any_cons, ih] <;>
      simp [h]

theorem write_spec (st : V2.LogState) (level line : String) :
    V2.write st level line =
      if st.streams.any (fun p => V2.accepts p.2 level) then
        (st.streams.filter (fun p => V2.accepts p.2 level)).map
          (fun p => (p.1, utilFormat line ++ "\n"))
      else
        match st.defaultStream with
        | some d => [(d, utilFormat line ++ "\n")]
        | none => [] := by
  unfold V2.write
  simp only [writeCore_spec, List.nil_append, Bool.false_or]

theorem countP_filter_key {ν : Type} (l : List (Nat × ν)) (f : Nat × ν → Bool) (k : Nat)
    (hn : (l.map Prod.fst).Nodup) (p : Nat × ν) (hp : p ∈ l) (hk : p.1 = k) :
    (l.filter f).countP (fun q => decide (q.1 = k)) = if f p then 1 else 0 := by
  induction l with
  | nil => cases hp
  | cons q rest ih =>
    simp only [List.map_cons, List.nodup_cons] at hn
    obtain ⟨hq, hrest⟩ := hn
    rcases List.mem_cons.mp hp with rfl | hp'
    · have hzero : (rest.filter f).countP (fun r => decide (r.1 = k)) = 0 := by
        apply List.countP_eq_zero.mpr
        intro r hr
        have hr' : r.1 ∈ rest.map Prod.fst :=
          List.mem_map_of_mem Prod.fst (List.mem_of_mem_filter hr)
        simp only [decide_eq_true_eq]
        intro e
        exact hq (by rw [hk, ← e]; exact hr')
      by_cases hf : f p
      · simp [List.filter_cons, hf, List.countP_cons, hzero, hk]
      · simp [List.filter_cons, hf, hzero]
    · have hpk : p.1 ∈ rest.map Prod.fst := List.mem_map_of_mem Prod.fst hp'
      have hqk : (q.1 = k) = False := by
        simp only [eq_iff_iff, iff_false]
        intro e
        exact hq (by rw [e, ← hk]; exact hpk)
      by_cases hf : f q
      · simp [List.filter_cons, hf, List.countP_cons, hqk, ih hrest hp']
      · simp [List.filter_cons, hf, ih hrest hp']

/-! Claim C1. -/

/-- C1 (amended): in the default-stream variant, for every leveled write
of a line at level L, every registered sink whose accepted set is
catch-all (levels omitted at registration, stored as `null`) or contains
L receives exactly one copy of the line; if no sink's set matched and a
default sink is set, exactly one write occurs, to the default sink only;
if no sink matched and no default is set, no sink receives anything. -/
theorem routeLevel_copies (st : V2.LogState) (level line : String)
    (hnodup : (st.streams.map Prod.fst).Nodup) :
    ((∃ p ∈ st.streams, V2.accepts p.2 level = true) →
      ∀ p ∈ st.streams,
        (V2.write st level line).countP (fun e => decide (e.1 = p.1)) =
          if V2.accepts p.2 level then 1 else 0) ∧
    ((∀ p ∈ st.streams, V2.accepts p.2 level = false) →
      (∀ d, st.defaultStream = some d →
        V2.write st level line = [(d, utilFormat line ++ "\n")]) ∧
      (st.defaultStream = none → V2.write st level line = [])) := by
  constructor
  · rintro ⟨q, hq, hacc⟩ p hp
    have hany : st.streams.any (fun p => V2.accepts p.2 level) = true :=
      List.any_eq_true.mpr ⟨q, hq, hacc⟩
    rw [write_spec, if_pos hany, List.countP_map]
    exact countP_filter_key st.streams _ p.1 hnodup p hp rfl
  · intro hall
    have hany : st.streams.any (fun p => V2.accepts p.2 level) = false := by
      rw [List.any_eq_false]
      intro p hp
      simp [hall p hp]
    constructor
    · intro d hd
      rw [write_spec, if_neg (by simp [hany]), hd]
    · intro hd
      rw [write_spec, if_neg (by simp [hany]), hd]

/-- C1 witness: on the fresh logger, an `info` write delivers exactly one
copy to the stdout sink (which accepts `info`) and none to the stderr
sink. -/
theorem routeLevel_copies_witness :
    (V2.initState.streams.map Prod.fst).Nodup ∧
    (V2.write V2.initState "info" "m").countP (fun e => decide (e.1 = 0)) = 1 ∧
    (V2.write V2.initState "info" "m").countP (fun e => decide (e.1 = 1)) = 0 := by
  refine ⟨by decide, ?_, ?_⟩
  · have h := (routeLevel_copies V2.initState "info" "m" (by decide)).1
      ⟨(0, some ["info", "success"]), by decide, by decide⟩
      (0, some ["info", "success"]) (by decide)
    have e : V2.accepts (some ["info", "success"]) "info" = true := by decide
    rw [e] at h
    simpa using h
  · have h := (routeLevel_copies V2.initState "info" "m" (by decide)).1
      ⟨(0, some ["info", "success"]), by decide, by decide⟩
      (1, some ["warn", "error"]) (by decide)
    have e : V2.accepts (some ["warn", "error"]) "info" = false := by decide
    rw [e] at h
    simpa using h

/-- C1 counterexample: a sink registered with an explicit empty level
set (`pipe(s, [])`) is not catch-all in this variant: on an `info`
write it receives zero copies and the default-stream fallback fires
instead, contradicting the claim's reading that an empty accepted set is
catch-all and receives every level.  (The repository's own test,
src/unnamed/part_002 lines 999-1016, pins this behavior down.) -/
theorem routeLevel_emptySet_cx :
    V2.write { streams := [(0, some []), (1, some ["warn"])], defaultStream := some 1,
               members := V2.classMembers, levels := ["info", "warn", "error", "success"],
               funcs := [] } "info" "m" = [(1, "m\n")] ∧
    (V2.write { streams := [(0, some []), (1, some ["warn"])], defaultStream := some 1,
                members := V2.classMembers, levels := ["info", "warn", "error", "success"],
                funcs := [] } "info" "m").countP (fun e => decide (e.1 = 0)) = 0 := by
  exact ⟨by decide, by decide⟩

/-! More helper lemmas: the part_003 write pipeline and map deletion. -/

theorem writeV3_spec (st : V3.LogState) (level msg : String) (hp : st.isPaused = false) :
    V3.write st level msg =
      (st.streams.filter (fun p => V3.accepts p level)).map
        (fun p => (p.1.sid, V3.lineOut st msg)) := by
  unfold V3.write V3.lineOut
  rw [if_neg (by simp [hp])]
  simp only [foldl_if_append, List.nil_append]

theorem writeV3_mem (st : V3.LogState) (level msg : String) :
    ∀ e ∈ V3.write st level msg, ∃ p ∈ st.streams, e.1 = p.1.sid ∧ V3.accepts p level = true := by
  intro e he
  by_cases hp : st.isPaused = true
  · unfold V3.write at he
    rw [if_pos (by simp [hp])] at he
    cases he
  · rw [writeV3_spec st level msg (by simpa using hp)] at he
    obtain ⟨p, hpmem, rfl⟩ := List.mem_map.mp he
    exact ⟨p, List.mem_of_mem_filter hpmem, rfl, (List.mem_filter.mp hpmem).2⟩

theorem mapDelete_subset {κ ν : Type} [DecidableEq κ] (k : κ) (l : List (κ × ν)) :
    ∀ p ∈ mapDelete k l, p ∈ l := by
  induction l with
  | nil => intro p hp; cases hp
  | cons q rest ih =>
    obtain ⟨k', v'⟩ := q
    intro p hp
    by_cases h : k' = k
    · simp only [mapDelete, if_pos h] at hp
      exact List.mem_cons_of_mem _ hp
    · simp only [mapDelete, if_neg h] at hp
      rcases List.mem_cons.mp hp with rfl | hp'
      · exact List.mem_cons_self _ _
      · exact List.mem_cons_of_mem _ (ih p hp')

theorem mapDelete_key_not_mem {κ ν : Type} [DecidableEq κ] (k : κ) (l : List (κ × ν))
    (hn : (l.map Prod.fst).Nodup) : ∀ p ∈ mapDelete k l, p.1 ≠ k := by
  induction l with
  | nil => intro p hp; cases hp
  | cons q rest ih =>
    obtain ⟨k', v'⟩ := q
    simp only [List.map_cons, List.nodup_cons] at hn
    obtain ⟨hq, hrest⟩ := hn
    intro p hp
    by_cases h : k' = k
    · simp only [mapDelete, if_pos h] at hp
      intro e
      apply hq
      have hm : p.1 ∈ rest.map Prod.fst := List.mem_map_of_mem Prod.fst hp
      rwa [e, ← h] at hm
    · simp only [mapDelete, if_neg h] at hp
      rcases List.mem_cons.mp hp with rfl | hp'
      · simpa using h
      · exact ih hrest p hp'

/-! Claim C2. -/

/-- C2 (amended): the bypass of level-based routing by `write()` belongs
to the default-stream variant (the final module of part_002), where
`write` is tagged `NO_LEVEL`, skips every registered sink's filter, and
produces exactly one write to the default sink (none when no default is
set).  In the richest variant (part_003) `write()` is instead tagged
with the `info` level and routed through per-sink level filters like any
`info` message. -/
theorem plainWrite_routing (stb : V2b.LogState) (st3 : V3.LogState) (msg : String)
    (hp : stb.isPaused = false) :
    V2b.plainWrite stb msg =
      (match stb.defaultStream with
       | some d => [(d, utilFormat msg ++ "\n")]
       | none => []) ∧
    V3.plainWrite st3 msg = V3.write st3 "info" msg := by
  refine ⟨?_, rfl⟩
  unfold V2b.plainWrite V2b.write
  rw [if_neg (by simp [hp])]
  simp

/-- C2 witness: on the fresh part_002-module logger (not paused) a plain
`write` goes to the default sink (stdout), and on the fresh part_003
logger `write` equals an `info`-tagged write. -/
theorem plainWrite_routing_witness :
    V2b.initState.isPaused = false ∧
    V2b.plainWrite V2b.initState "x" = [(0, "x\n")] ∧
    V3.plainWrite V3.initState "x" = V3.write V3.initState "info" "x" := by
  have h := plainWrite_routing V2b.initState V3.initState "x" (by decide)
  exact ⟨by decide, h.1.trans (by decide), h.2⟩

/-- C2 counterexample: in the richest variant (part_003, the one with
indentation and a custom line terminator), `write()` does not bypass
level routing: on the fresh logger the line lands on the stdout sink
because that sink's filter contains `info` (there is no default sink in
this variant at all), and removing `info` from every filter makes the
same call write nothing — the routing depends on the per-sink level
filters, contradicting the claim. -/
theorem plainWrite_levelRouted_cx :
    V3.plainWrite V3.initState "x" = [(0, "x\n")] ∧
    V3.plainWrite { V3.initState with
      streams := [(⟨0, true⟩, ["success"]), (⟨1, true⟩, ["warn", "error"])] } "x" = [] := by
  exact ⟨by decide, by decide⟩

/-! Claim C3. -/

/-- C3 (amended): automatic deregistration on closure exists in the
richest variant (part_003): `pipe` attaches the close listener, and when
a registered sink signals closure the listener removes it exactly as
`unpipe(sink)` would (the same map deletion), after which the sink
receives no subsequent line.  This variant has no default sink, so no
default status can be cleared; in the default-stream variants
(src/index.ts and the part_002 module) `pipe` attaches no close listener
and closure removes nothing (see the counterexample). -/
theorem closeSignal_unpipe (st : V3.LogState) (s : V3.Sink) (ls : List String)
    (hh : st.closeHandlers.contains s = true)
    (hnodup : (st.streams.map Prod.fst).Nodup)
    (hsid : ∀ p ∈ st.streams, p.1.sid = s.sid → p.1 = s) :
    (V3.pipe s ls st).closeHandlers.contains s = true ∧
    (V3.onClose s st).streams = (V3.unpipe s st).streams ∧
    (∀ level msg, ∀ e ∈ V3.write (V3.onClose s st) level msg, e.1 ≠ s.sid) := by
  have hh' : s ∈ st.closeHandlers := by simpa using hh
  refine ⟨?_, ?_, ?_⟩
  · simp [V3.pipe]
  · simp [V3.onClose, V3.unpipe, hh']
  · intro level msg e he
    obtain ⟨p, hpmem, hsidEq, _⟩ := writeV3_mem _ level msg e he
    have hpdel : p ∈ mapDelete s st.streams := by
      simpa [V3.onClose, hh'] using hpmem
    intro habs
    have hkey : p.1 ≠ s := mapDelete_key_not_mem s st.streams hnodup p hpdel
    have hmem : p ∈ st.streams := mapDelete_subset s st.streams p hpdel
    exact hkey (hsid p hmem (by rw [← hsidEq, habs]))

/-- C3 witness: on the fresh part_003 logger, closing the stdout sink
removes it exactly as `unpipe` would and it receives no later `info`
line. -/
theorem closeSignal_unpipe_witness :
    V3.initState.closeHandlers.contains (⟨0, true⟩ : V3.Sink) = true ∧
    (V3.onClose ⟨0, true⟩ V3.initState).streams = (V3.unpipe ⟨0, true⟩ V3.initState).streams ∧
    (∀ e ∈ V3.write (V3.onClose ⟨0, true⟩ V3.initState) "info" "m", e.1 ≠ 0) := by
  have h := closeSignal_unpipe V3.initState ⟨0, true⟩ [] (by decide) (by decide)
    (by decide)
  exact ⟨h.1.symm ▸ by decide, h.2.1, fun e he => h.2.2 "info" "m" e he⟩

/-- C3 counterexample: in the default-stream variant (src/index.ts),
`pipe` registers no close listener, so when the default sink (stdout)
signals closure it is not removed: it still receives the next `info`
line and remains the default sink — the claim fails for sinks
registered via this variant's `pipe`. -/
theorem closeSignal_noHandler_cx :
    V2.onClose 0 V2.initState = V2.initState ∧
    (0, "m\n") ∈ V2.write (V2.onClose 0 V2.initState) "info" "m" ∧
    (V2.onClose 0 V2.initState).defaultStream = some 0 := by
  exact ⟨rfl, by decide, by decide⟩

/-! Helper lemmas for the progress bar. -/

theorem writeProgress_finished (pfx term : String) (w : ℚ) (color : String → String)
    (fin first : Bool) (st : Progress.State) (h : st.finished = true) :
    Progress.writeProgress pfx term w color fin first st = st := by
  unfold Progress.writeProgress
  rw [if_pos h]

theorem writeProgress_fin (pfx term : String) (w : ℚ) (color : String → String)
    (first : Bool) (st : Progress.State) :
    (Progress.writeProgress pfx term w color true first st).finished = true := by
  unfold Progress.writeProgress
  by_cases h : st.finished = true
  · rw [if_pos h]; exact h
  · simp [h]

theorem update_one (pfx term : String) (st : Progress.State) :
    Progress.update pfx term 1 st = Progress.writeProgress pfx term 1 pcGreen true false st := by
  simp only [Progress.update]
  norm_num

theorem cancel_finished (pfx term : String) (st : Progress.State) :
    (Progress.cancel pfx term st).finished = true := by
  unfold Progress.cancel
  exact writeProgress_fin pfx term st.currentValue pcRed false st

/-! Claim C4. -/

/-- C4: at most one interactive overlay is active at a time: in every
logger state with an active overlay (`#userPrompt` set), calling
`progress()`, `prompt()` or `choice()` raises an error synchronously (the
result is the thrown error, so no second overlay is activated and the
state is unchanged). -/
theorem overlay_exclusive (st : V3.LogState) (p : String) (h : st.userPrompt = some p) :
    (∀ pfx pct, (V3.progressOp pfx pct st).isOk = false) ∧
    (∀ msg mask, (V3.promptOp msg mask st).isOk = false) ∧
    (∀ cs opts, (V3.choiceOp cs opts st).isOk = false) := by
  have hs : st.userPrompt.isSome = true := by simp [h]
  refine ⟨?_, ?_, ?_⟩
  · intro pfx pct
    simp [V3.progressOp, hs, Except.isOk, Except.toBool]
  · intro msg mask
    simp [V3.promptOp, hs, Except.isOk, Except.toBool]
  · intro cs opts
    unfold V3.choiceOp
    by_cases hc : cs.length = 0
    · simp [hc, Except.isOk, Except.toBool]
    · simp [hc, hs, Except.isOk, Except.toBool]

/-- C4 witness: with a prompt overlay active on the fresh logger, each of
the three overlay constructors fails. -/
theorem overlay_exclusive_witness :
    ({ V3.initState with userPrompt := some "> " } : V3.LogState).userPrompt = some "> " ∧
    (V3.progressOp "p" 0 { V3.initState with userPrompt := some "> " }).isOk = false ∧
    (V3.promptOp "? " false { V3.initState with userPrompt := some "> " }).isOk = false ∧
    (V3.choiceOp [Choice.plainChoice "Blue"] {}
      { V3.initState with userPrompt := some "> " }).isOk = false := by
  have h := overlay_exclusive { V3.initState with userPrompt := some "> " } "> " rfl
  exact ⟨rfl, h.1 "p" 0, h.2.1 "? " false, h.2.2 [Choice.plainChoice "Blue"] {}⟩

/-! Claim C5. -/

/-- C5: `update(v)` clamps — for v below 0 it behaves identically to
`update(0)` and for v above 1 identically to `update(1)`; an update
reaching the value exactly 1 auto-transitions the bar to the finished
success-colored state, writing the bar text with the trailing terminator
and deactivating the overlay, unless `cancel()` was called first (after
a cancel every further update is a no-op). -/
theorem progress_clamp_autoFinish (pfx term : String) (v : ℚ) (st : Progress.State) :
    (v < 0 → Progress.update pfx term v st = Progress.update pfx term 0 st) ∧
    (1 < v → Progress.update pfx term v st = Progress.update pfx term 1 st) ∧
    (st.finished = false →
      (Progress.update pfx term 1 st).finished = true ∧
      (Progress.update pfx term 1 st).userPrompt = none ∧
      (Progress.update pfx term 1 st).stdout.getLast? =
        some (Progress.barText pfx pcGreen 1 ++ term)) ∧
    Progress.update pfx term v (Progress.cancel pfx term st) = Progress.cancel pfx term st := by
  have clamp0 : ∀ w : ℚ, w ≤ 0 → min 1 (max 0 w) = 0 := by
    intro w hw
    rw [max_eq_left hw, min_eq_right]
    norm_num
  refine ⟨?_, ?_, ?_, ?_⟩
  · intro hv
    simp only [Progress.update]
    rw [clamp0 v hv.le, clamp0 0 le_rfl]
  · intro hv
    simp only [Progress.update]
    have h1 : min 1 (max 0 v) = 1 := by
      rw [max_eq_right (le_trans zero_le_one hv.le), min_eq_left hv.le]
    rw [h1]
    norm_num
  · intro hfin
    rw [update_one]
    unfold Progress.writeProgress
    rw [if_neg (by simp [hfin])]
    by_cases hch : st.userPrompt = some (Progress.barText pfx pcGreen 1) <;>
      simp [hch]
  · simp only [Progress.update]
    exact writeProgress_finished pfx term _ _ _ _ _ (cancel_finished pfx term st)

/-- C5 witness: on a fresh unfinished bar, `update(-3/10)` behaves as
`update(0)`, `update(14/10)` behaves as `update(1)`, and `update(1)`
finishes the bar. -/
theorem progress_clamp_autoFinish_witness :
    Progress.update "p" "\n" (-(3 : ℚ) / 10)
        { currentValue := 0, finished := false, userPrompt := none, stdout := [] } =
      Progress.update "p" "\n" 0
        { currentValue := 0, finished := false, userPrompt := none, stdout := [] } ∧
    Progress.update "p" "\n" ((14 : ℚ) / 10)
        { currentValue := 0, finished := false, userPrompt := none, stdout := [] } =
      Progress.update "p" "\n" 1
        { currentValue := 0, finished := false, userPrompt := none, stdout := [] } ∧
    (Progress.update "p" "\n" 1
        { currentValue := 0, finished := false, userPrompt := none, stdout := [] }).finished
      = true := by
  have h1 := progress_clamp_autoFinish "p" "\n" (-(3 : ℚ) / 10)
    { currentValue := 0, finished := false, userPrompt := none, stdout := [] }
  have h2 := progress_clamp_autoFinish "p" "\n" ((14 : ℚ) / 10)
    { currentValue := 0, finished := false, userPrompt := none, stdout := [] }
  exact ⟨h1.1 (by norm_num), h2.2.1 (by norm_num), (h1.2.2.1 rfl).1⟩

/-! Claim C6. -/

/-- C6: `finish()` is idempotent: on a bar already finished — whether via
`finish()`, `cancel()` or the auto-finish of `update(1)` — a further
`finish()` produces no output and changes no state. -/
theorem finish_idempotent (pfx term : String) (st : Progress.State) :
    (st.finished = true → Progress.finish pfx term st = st) ∧
    Progress.finish pfx term (Progress.finish pfx term st) = Progress.finish pfx term st ∧
    Progress.finish pfx term (Progress.cancel pfx term st) = Progress.cancel pfx term st ∧
    Progress.finish pfx term (Progress.update pfx term 1 st) = Progress.update pfx term 1 st := by
  refine ⟨?_, ?_, ?_, ?_⟩
  · intro h
    exact writeProgress_finished pfx term _ _ _ _ _ h
  · exact writeProgress_finished pfx term _ _ _ _ _
      (writeProgress_fin pfx term 1 pcGreen false st)
  · exact writeProgress_finished pfx term _ _ _ _ _ (cancel_finished pfx term st)
  · have hf : (Progress.update pfx term 1 st).finished = true := by
      rw [update_one]
      exact writeProgress_fin pfx term 1 pcGreen false st
    exact writeProgress_finished pfx term _ _ _ _ _ hf

/-- C6 witness: `finish()` on an already-finished bar returns the state
unchanged. -/
theorem finish_idempotent_witness :
    Progress.finish "p" "\n"
        { currentValue := 1, finished := true, userPrompt := none,
          stdout := ["done"] } =
      { currentValue := 1, finished := true, userPrompt := none, stdout := ["done"] } := by
  exact (finish_idempotent "p" "\n" _).1 rfl

/-! Claim C9. -/

/-- C9: in the part_003 write pipeline the stream-writability check only
guards catch-all (empty-level-list) streams: every registered stream
whose explicit level list contains the message's level accepts the line
(and the write event is emitted) even when the stream is not writable,
while for an empty-list stream acceptance equals its `writable` flag —
the condition is `(writable AND empty-list) OR list-contains-level`. -/
theorem writableGuard_catchAll (st : V3.LogState) (level msg : String)
    (hp : st.isPaused = false) :
    (∀ p ∈ st.streams, p.2.contains level = true →
      V3.accepts p level = true ∧
      (p.1.sid, V3.lineOut st msg) ∈ V3.write st level msg) ∧
    (∀ q ∈ st.streams, q.2 = [] → V3.accepts q level = q.1.writable) := by
  constructor
  · intro p hp2 hl
    have hacc : V3.accepts p level = true := by
      simp only [V3.accepts, hl, Bool.or_true]
    refine ⟨hacc, ?_⟩
    rw [writeV3_spec st level msg hp]
    exact List.mem_map_of_mem _ (List.mem_filter.mpr ⟨hp2, hacc⟩)
  · intro q hq he
    simp [V3.accepts, he]

/-- C9 witness: a non-writable stream registered with the explicit list
`['info']` still receives an `info` line. -/
theorem writableGuard_catchAll_witness :
    ({ V3.initState with streams := [(⟨5, false⟩, ["info"])] } : V3.LogState).isPaused
      = false ∧
    V3.accepts (⟨5, false⟩, ["info"]) "info" = true ∧
    (5, "m\n") ∈ V3.write { V3.initState with streams := [(⟨5, false⟩, ["info"])] }
      "info" "m" := by
  have h := (writableGuard_catchAll { V3.initState with streams := [(⟨5, false⟩, ["info"])] }
    "info" "m" (by decide)).1 (⟨5, false⟩, ["info"]) (by decide) (by decide)
  have hline : V3.lineOut { V3.initState with streams := [(⟨5, false⟩, ["info"])] } "m"
      = "m\n" := by decide
  exact ⟨by decide, h.1, hline ▸ h.2⟩

/-! Helper lemmas for level registration. -/

theorem mapGet_mapSet_self {κ ν : Type} [DecidableEq κ] (k : κ) (v : ν) (l : List (κ × ν)) :
    mapGet k (mapSet k v l) = some v := by
  induction l with
  | nil => simp [mapSet, mapGet]
  | cons q rest ih =>
    obtain ⟨k', v'⟩ := q
    by_cases h : k' = k <;> simp [mapSet, mapGet, h, ih]

theorem addLevel_isOk (st2 : V2.LogState) (name : String) (dec : Option Nat) (atd : Bool) :
    (V2.addLevel name dec atd st2).isOk =
      ((!(st2.members.contains name) || st2.levels.contains name) && name ≠ "default") := by
  unfold V2.addLevel
  split
  next h =>
    rw [h]
    rfl
  next h =>
    have h' : ((!(st2.members.contains name) || st2.levels.contains name)
        && (name ≠ "default" : Bool)) = false := by
      revert h
      cases (!(st2.members.contains name) || st2.levels.contains name)
          && (name ≠ "default" : Bool) <;> simp
    rw [h']
    rfl

theorem levelOp_isOk (st3 : V3.LogState) (name : String) (dec : Option Nat)
    (target : V3.Sink) :
    (V3.levelOp name dec target st3).isOk =
      (!(st3.members.contains name) || st3.levels.contains name) := by
  unfold V3.levelOp
  split
  next h =>
    rw [h]
    rfl
  next h =>
    have h' : (!(st3.members.contains name) || st3.levels.contains name) = false := by
      revert h
      cases !(st3.members.contains name) || st3.levels.contains name <;> simp
    rw [h']
    rfl

/-! Claim C8. -/

/-- C8 (amended): level registration fails iff the name collides with a
non-overridable operation name — or, in the default-stream variant's
`addLevel`, iff additionally the name is the literal string `'default'`,
which is reserved although it is neither a class member nor a level.  A
name that is an existing member and not a registered level always
raises; a name that is already a known level succeeds and overwrites the
installed level function (in `addLevel`, provided the name is not
`'default'`, which never is a known level in reachable states).  The
part_003 variant's `level()` has no `'default'` check and satisfies the
claim's iff exactly. -/
theorem addLevel_reserved_iff (st2 : V2.LogState) (st3 : V3.LogState)
    (name : String) (dec : Option Nat) (atd : Bool) (target : V3.Sink) :
    ((V2.addLevel name dec atd st2).isOk = false ↔
      (st2.members.contains name = true ∧ st2.levels.contains name = false)
        ∨ name = "default") ∧
    (st2.levels.contains name = true → name ≠ "default" →
      ∃ st', V2.addLevel name dec atd st2 = .ok st' ∧
        mapGet name st'.funcs = some dec) ∧
    ((V3.levelOp name dec target st3).isOk = false ↔
      (st3.members.contains name = true ∧ st3.levels.contains name = false)) ∧
    (st3.levels.contains name = true →
      ∃ st', V3.levelOp name dec target st3 = .ok st' ∧
        mapGet name st'.funcs = some dec) := by
  refine ⟨?_, ?_, ?_, ?_⟩
  · rw [addLevel_isOk]
    cases hm : st2.members.contains name <;> cases hl : st2.levels.contains name <;>
      by_cases hd : name = "default" <;> simp [hd]
  · intro hl hd
    unfold V2.addLevel
    rw [if_pos (by simp [hd]; exact Or.inr (by simpa using hl))]
    exact ⟨_, rfl, mapGet_mapSet_self name dec _⟩
  · rw [levelOp_isOk]
    cases hm : st3.members.contains name <;> cases hl : st3.levels.contains name <;> simp
  · intro hl
    unfold V3.levelOp
    rw [if_pos (by simp; exact Or.inr (by simpa using hl))]
    exact ⟨_, rfl, mapGet_mapSet_self name dec _⟩

/-- C8 witness: on fresh loggers, registering the reserved names
`addLevel` / `level` fails, and registering the known level `info`
succeeds and overwrites its function. -/
theorem addLevel_reserved_iff_witness :
    (V2.addLevel "addLevel" none true V2.initState).isOk = false ∧
    (∃ st', V2.addLevel "info" none true V2.initState = .ok st' ∧
      mapGet "info" st'.funcs = some none) ∧
    (V3.levelOp "level" none ⟨0, true⟩ V3.initState).isOk = false ∧
    (∃ st', V3.levelOp "info" none ⟨0, true⟩ V3.initState = .ok st' ∧
      mapGet "info" st'.funcs = some none) := by
  have h1 := addLevel_reserved_iff V2.initState V3.initState "addLevel" none true ⟨0, true⟩
  have h2 := addLevel_reserved_iff V2.initState V3.initState "info" none true ⟨0, true⟩
  have h3 := addLevel_reserved_iff V2.initState V3.initState "level" none true ⟨0, true⟩
  exact ⟨h1.1.mpr (Or.inl ⟨by decide, by decide⟩),
         h2.2.1 (by decide) (by decide),
         h3.2.2.1.mpr ⟨by decide, by decide⟩,
         h2.2.2.2 (by decide)⟩

/-- C8 counterexample: `addLevel('default')` on the fresh default-stream
logger raises, although `'default'` is neither an existing class member
nor a registered level — so registration failure is not equivalent to
collision with a non-overridable operation name, contradicting the
claim's "if and only if". -/
theorem addLevel_default_cx :
    (V2.addLevel "default" none true V2.initState).isOk = false ∧
    V2.initState.members.contains "default" = false ∧
    V2.initState.levels.contains "default" = false := by
  exact ⟨by decide, by decide, by decide⟩

/-! Claim C10. -/

/-- C10: in the default-stream variant the name `'default'` is reserved:
`addLevel('default')` raises in every state, even though `'default'` is
neither an operation defined on the `Log` class nor a registered level
on the fresh logger. -/
theorem addLevel_default_reserved :
    (∀ dec atd st, (V2.addLevel "default" dec atd st).isOk = false) ∧
    V2.initState.members.contains "default" = false ∧
    V2.initState.levels.contains "default" = false := by
  refine ⟨?_, by decide, by decide⟩
  intro dec atd st
  unfold V2.addLevel
  rw [if_neg (by simp)]
  rfl

/-! Helper lemmas: decimal representations are injective. -/

theorem digitVal_digitChar : ∀ m, m < 10 → digitVal (Nat.digitChar m) = m := by decide

theorem parse_toDigitsCore (n : Nat) : ∀ fuel ds a, n < fuel →
    parseDigits a (Nat.toDigitsCore 10 fuel n ds) =
      parseDigits (a * 10 ^ digitCount n + n) ds := by
  induction n using Nat.strong_induction_on with
  | _ n IH =>
    intro fuel ds a hfuel
    match fuel, hfuel with
    | fuel + 1, hfuel =>
      show parseDigits a (Nat.toDigitsCore 10 (fuel + 1) n ds) = _
      rw [Nat.toDigitsCore]
      by_cases h : n / 10 = 0
      · rw [if_pos h]
        have hn : n < 10 := by omega
        show parseDigits (a * 10 + digitVal (Nat.digitChar (n % 10))) ds = _
        rw [digitVal_digitChar (n % 10) (Nat.mod_lt n (by norm_num))]
        rw [Nat.mod_eq_of_lt hn]
        have hdc : digitCount n = 1 := by
          unfold digitCount
          rw [dif_pos hn]
        rw [hdc, pow_one]
      · rw [if_neg h]
        have h10 : 10 ≤ n := by omega
        have hlt : n / 10 < n := Nat.div_lt_self (by omega) (by norm_num)
        have hfuel' : n / 10 < fuel := by omega
        rw [IH (n / 10) hlt fuel (Nat.digitChar (n % 10) :: ds) a hfuel']
        show parseDigits
          ((a * 10 ^ digitCount (n / 10) + n / 10) * 10 + digitVal (Nat.digitChar (n % 10))) ds
          = _
        rw [digitVal_digitChar (n % 10) (Nat.mod_lt n (by norm_num))]
        have hdc : digitCount n = digitCount (n / 10) + 1 := by
          conv_lhs => unfold digitCount
          rw [dif_neg (by omega)]
        have hdm : n / 10 * 10 + n % 10 = n := by
          have := Nat.div_add_mod n 10
          omega
        have harith : (a * 10 ^ digitCount (n / 10) + n / 10) * 10 + n % 10
            = a * 10 ^ (digitCount (n / 10) + 1) + n := by
          calc (a * 10 ^ digitCount (n / 10) + n / 10) * 10 + n % 10
              = a * (10 ^ digitCount (n / 10) * 10) + (n / 10 * 10 + n % 10) := by ring
            _ = a * 10 ^ (digitCount (n / 10) + 1) + n := by rw [hdm, pow_succ]
        rw [hdc, harith]

theorem parse_repr (n : Nat) : parseDigits 0 (Nat.repr n).data = n := by
  unfold Nat.repr Nat.toDigits List.asString
  show parseDigits 0 (Nat.toDigitsCore 10 (n + 1) n []) = n
  rw [parse_toDigitsCore n (n + 1) [] 0 (Nat.lt_succ_self n)]
  show 0 * 10 ^ digitCount n + n = n
  omega

theorem repr_injective : Function.Injective Nat.repr := by
  intro m n h
  have hm := parse_repr m
  rw [h, parse_repr n] at hm
  exact hm.symm

/-! Helper lemmas: the numeric-key fallback search. -/

theorem exists_unused (used : List String) (n : Nat) :
    ∃ m, n ≤ m ∧ m < n + (used.length + 1) ∧ used.contains (Nat.repr m) = false := by
  by_contra hcon
  push_neg at hcon
  have hall : ∀ i < used.length + 1, Nat.repr (n + i) ∈ used := by
    intro i hi
    have h := hcon (n + i) (Nat.le_add_right n i) (by omega)
    have h' : used.contains (Nat.repr (n + i)) = true := by
      cases hc : used.contains (Nat.repr (n + i))
      · exact absurd hc h
      · rfl
    simpa using h'
  have hinj : Function.Injective (fun i : Nat => Nat.repr (n + i)) := by
    intro i j hij
    have := repr_injective hij
    omega
  have hnodupC : ((List.range (used.length + 1)).map (fun i => Nat.repr (n + i))).Nodup :=
    (List.nodup_range _).map hinj
  have hsubset : ∀ x ∈ (List.range (used.length + 1)).map (fun i => Nat.repr (n + i)),
      x ∈ used := by
    intro x hx
    obtain ⟨i, hi, rfl⟩ := List.mem_map.mp hx
    exact hall i (List.mem_range.mp hi)
  have hcard : ((List.range (used.length + 1)).map (fun i => Nat.repr (n + i))).length
      ≤ used.length := by
    calc ((List.range (used.length + 1)).map (fun i => Nat.repr (n + i))).length
        = ((List.range (used.length + 1)).map (fun i => Nat.repr (n + i))).toFinset.card :=
          (List.toFinset_card_of_nodup hnodupC).symm
      _ ≤ used.toFinset.card := Finset.card_le_card (fun x hx =>
          List.mem_toFinset.mpr (hsubset x (List.mem_toFinset.mp hx)))
      _ ≤ used.length := used.toFinset_card_le
  simp at hcard

theorem numKeyFrom_min (used : List String) :
    ∀ fuel n, (∃ m, n ≤ m ∧ m < n + fuel ∧ used.contains (Nat.repr m) = false) →
    ∃ m, n ≤ m ∧ Choice.numKeyFrom used n fuel = Nat.repr m ∧
      used.contains (Nat.repr m) = false ∧
      ∀ j, n ≤ j → j < m → used.contains (Nat.repr j) = true := by
  intro fuel
  induction fuel with
  | zero =>
    rintro n ⟨m, h1, h2, _⟩
    omega
  | succ fuel ih =>
    rintro n ⟨m, hm1, hm2, hm3⟩
    by_cases h : used.contains (Nat.repr n) = true
    · have hmn : m ≠ n := by
        intro e
        rw [e, h] at hm3
        cases hm3
      obtain ⟨m', h1, h2, h3, h4⟩ := ih (n + 1) ⟨m, by omega, by omega, hm3⟩
      refine ⟨m', by omega, ?_, h3, ?_⟩
      · unfold Choice.numKeyFrom
        rw [if_pos h]
        exact h2
      · intro j hj1 hj2
        rcases Nat.eq_or_lt_of_le hj1 with rfl | hj1'
        · exact h
        · exact h4 j hj1' hj2
    · have h' : used.contains (Nat.repr n) = false := by
        cases hc : used.contains (Nat.repr n)
        · rfl
        · exact absurd hc h
      refine ⟨n, le_rfl, ?_, h', fun j hj1 hj2 => absurd hj1 (by omega)⟩
      unfold Choice.numKeyFrom
      rw [if_neg h]

theorem numKeyFrom_NumSpec (used : List String) (pos : Nat) :
    Choice.NumSpec used pos (Choice.numKeyFrom used pos (used.length + 1)) := by
  obtain ⟨m, h1, h2, h3, h4⟩ :=
    numKeyFrom_min used (used.length + 1) pos (exists_unused used pos)
  exact ⟨m, h1, h2, h3, h4⟩

theorem genKey_spec (used : List String) (label : String) (pos : Nat) :
    Choice.KeySpec used label pos (Choice.genKey used label pos) := by
  unfold Choice.KeySpec
  cases hfa : Choice.firstAlpha label with
  | none =>
    show Choice.NumSpec used pos (Choice.genKey used label pos)
    have hg : Choice.genKey used label pos = Choice.numKeyFrom used pos (used.length + 1) := by
      unfold Choice.genKey
      rw [hfa]
    rw [hg]
    exact numKeyFrom_NumSpec used pos
  | some c =>
    show (used.contains c = false ∧ Choice.genKey used label pos = c) ∨
      (used.contains c = true ∧ Choice.NumSpec used pos (Choice.genKey used label pos))
    have hg : Choice.genKey used label pos =
        (if used.contains c then Choice.numKeyFrom used pos (used.length + 1) else c) := by
      unfold Choice.genKey
      rw [hfa]
    by_cases h : used.contains c = true
    · rw [hg, if_pos h]
      exact Or.inr ⟨h, numKeyFrom_NumSpec used pos⟩
    · rw [hg, if_neg h]
      refine Or.inl ⟨?_, rfl⟩
      cases hc : used.contains c
      · rfl
      · exact absurd hc h

/-! Helper lemmas: the second assignment pass on label-only lists. -/

theorem assignLoop_cons_plain (used : List String) (i : Nat) (l : String)
    (items : List Choice.Item) :
    Choice.assignLoop used i (Choice.plainChoice l :: items) =
      { label := l, key := some (Choice.genKey used l (i + 1)) } ::
        Choice.assignLoop (used ++ [Choice.genKey used l (i + 1)]) (i + 1) items := by
  rfl

theorem assignLoop_plain_labels (labels : List String) :
    ∀ used i, (Choice.assignLoop used i (labels.map Choice.plainChoice)).map
      (fun c => c.label) = labels := by
  induction labels with
  | nil => intro used i; rfl
  | cons l ls ih =>
    intro used i
    rw [List.map_cons, assignLoop_cons_plain, List.map_cons, ih]

theorem assignLoop_plain_length (labels : List String) :
    ∀ used i, (Choice.keysOf (Choice.assignLoop used i (labels.map Choice.plainChoice))).length
      = labels.length := by
  induction labels with
  | nil => intro used i; rfl
  | cons l ls ih =>
    intro used i
    rw [List.map_cons, assignLoop_cons_plain]
    unfold Choice.keysOf
    rw [List.map_cons, List.length_cons, List.length_cons]
    have h := ih (used ++ [Choice.genKey used l (i + 1)]) (i + 1)
    unfold Choice.keysOf at h
    rw [h]

theorem assignLoop_plain_spec (labels : List String) :
    ∀ used i j, j < labels.length →
      Choice.KeySpec
        (used ++ (Choice.keysOf (Choice.assignLoop used i (labels.map Choice.plainChoice))).take j)
        (labels.getD j "") (i + j + 1)
        ((Choice.keysOf (Choice.assignLoop used i (labels.map Choice.plainChoice))).getD j "") := by
  induction labels with
  | nil =>
    intro used i j hj
    simp at hj
  | cons l ls ih =>
    intro used i j hj
    rw [List.map_cons, assignLoop_cons_plain]
    unfold Choice.keysOf
    rw [List.map_cons]
    cases j with
    | zero =>
      simpa using genKey_spec used l (i + 1)
    | succ j' =>
      have hstep := ih (used ++ [Choice.genKey used l (i + 1)]) (i + 1) j'
        (by simpa using Nat.lt_of_succ_lt_succ hj)
      unfold Choice.keysOf at hstep
      have harith : i + (j' + 1) + 1 = i + 1 + j' + 1 := by omega
      simp only [List.take_succ_cons, List.getD_cons_succ, List.getD_cons_succ, harith,
        Option.getD_some]
      rw [List.append_cons]
      exact hstep

theorem collectExplicit_plain (labels : List String) :
    ∀ acc, Choice.collectExplicit (labels.map Choice.plainChoice) acc = .ok acc := by
  induction labels with
  | nil => intro acc; rfl
  | cons l ls ih =>
    intro acc
    simpa only [List.map_cons, Choice.collectExplicit, Choice.plainChoice] using ih acc

theorem assignKeys_plain (labels : List String) :
    Choice.assignKeys (labels.map Choice.plainChoice) =
      .ok (Choice.assignLoop [] 0 (labels.map Choice.plainChoice)) := by
  unfold Choice.assignKeys
  rw [collectExplicit_plain labels []]
  rfl

/-! Claim C7. -/

/-- C7: for every choice list without explicit keys, keys are assigned
in list order: each choice receives the first (lowercased) alphabetic
character of its label when that character is unused, and otherwise the
decimal string of the least number that is at least the choice's 1-based
position and whose decimal string is not already used (incrementing past
already-used numeric keys); in particular `["Continue", "Cancel"]`
receives the keys `"c"` and `"2"`. -/
theorem choiceKeys_assignment (labels : List String) :
    (∃ out, Choice.assignKeys (labels.map Choice.plainChoice) = .ok out ∧
      out.map (fun c => c.label) = labels ∧
      (Choice.keysOf out).length = labels.length ∧
      (∀ j, j < labels.length →
        Choice.KeySpec ((Choice.keysOf out).take j) (labels.getD j "") (j + 1)
          ((Choice.keysOf out).getD j ""))) ∧
    Choice.assignKeys [Choice.plainChoice "Continue", Choice.plainChoice "Cancel"] =
      .ok [{ label := "Continue", key := some "c" }, { label := "Cancel", key := some "2" }] := by
  constructor
  · refine ⟨Choice.assignLoop [] 0 (labels.map Choice.plainChoice), assignKeys_plain labels,
      assignLoop_plain_labels labels [] 0, assignLoop_plain_length labels [] 0, ?_⟩
    intro j hj
    have h := assignLoop_plain_spec labels [] 0 j hj
    simpa using h
  · decide

/-- C7 witness: for the list `["Continue", "Cancel"]` the second
choice's key satisfies the spec's description relative to the already
assigned key `"c"`. -/
theorem choiceKeys_assignment_witness :
    ∃ out, Choice.assignKeys (["Continue", "Cancel"].map Choice.plainChoice) = .ok out ∧
      Choice.KeySpec ((Choice.keysOf out).take 1) "Cancel" 2 ((Choice.keysOf out).getD 1 "") := by
  obtain ⟨⟨out, h1, _, _, h4⟩, _⟩ := choiceKeys_assignment ["Continue", "Cancel"]
  refine ⟨out, h1, ?_⟩
  have h := h4 1 (by norm_num)
  simpa using h

end Kogs
